import Mathlib

/-!
Shallow embedding of the attendance admin application
(src/attendance/views.py, src/users/views.py, src/users/models.py).

The relational store is modelled as lists of records; each Django view's
reproducible core (its reads, checks and writes) is a Lean function from
the store (plus the request data) to a result tag and an updated store.
Result tags are in one-to-one correspondence with the code paths of the
view (redirects, warning messages, success messages, 404s).
-/

/-- Attendance status values stored in the `status` column. -/
inductive Status where
  | present
  | late
  | absent
deriving DecidableEq, Repr

/-- The string stored in the database / shown in exports for a status. -/
def statusStr : Status → String
  | .present => "present"
  | .late => "late"
  | .absent => "absent"

/-- A row of the auth user table (the fields the views read). -/
structure User where
  id : Nat
  username : String
  email : String
  is_staff : Bool
  is_superuser : Bool
deriving DecidableEq, Repr

/-- A row of users.models.Profile (one-to-one with User). -/
structure Profile where
  user_id : Nat
  grade : String
  «section» : String
  field : String
  account : String
  phone_number : String
deriving DecidableEq, Repr

/-- A row of attendance.models.AttendanceSession, with its many-to-many
target set flattened to the list of target user ids. -/
structure AttendanceSession where
  id : Nat
  title : String
  created_at : Nat
  is_ended : Bool
  targets : List Nat
deriving DecidableEq, Repr

/-- A row of attendance.models.Attendance (one per (session, user) mark). -/
structure Attendance where
  session_id : Nat
  user_id : Nat
  status : Status
  attended_at : Nat
deriving DecidableEq, Repr

/-- The relational store the views read and write. -/
structure Store where
  users : List User
  profiles : List Profile
  sessions : List AttendanceSession
  attendances : List Attendance
deriving DecidableEq, Repr

/-- `get_object_or_404(AttendanceSession, id=session_id)`. -/
def findSession (st : Store) (sid : Nat) : Option AttendanceSession :=
  st.sessions.find? (fun s => s.id = sid)

/-- `get_object_or_404(User, id=user_id)`. -/
def findUser (st : Store) (uid : Nat) : Option User :=
  st.users.find? (fun u => u.id = uid)

/-- The attendance rows for one (session, user) pair. -/
def pairFilter (atts : List Attendance) (sid uid : Nat) : List Attendance :=
  atts.filter (fun a => a.session_id = sid ∧ a.user_id = uid)

/-- Schema invariant: at most one Attendance row per (session_id, user_id),
stated as pairwise distinctness of the key columns. -/
def AttUnique (atts : List Attendance) : Prop :=
  atts.Pairwise (fun a b => ¬ (a.session_id = b.session_id ∧ a.user_id = b.user_id))

/-- Schema invariant of the many-to-many target table: a session lists each
target user id once. -/
def TargetsNodup (st : Store) : Prop :=
  ∀ s ∈ st.sessions, s.targets.Nodup

/-- `Attendance.objects.update_or_create(session=, user=, defaults=...)`:
overwrite the existing row for the pair, or append a fresh one. -/
def upsertAttendance (atts : List Attendance) (sid uid : Nat) (stat : Status)
    (now : Nat) : List Attendance :=
  if atts.any (fun a => a.session_id = sid ∧ a.user_id = uid) then
    atts.map (fun a =>
      if a.session_id = sid ∧ a.user_id = uid then
        { a with status := stat, attended_at := now }
      else a)
  else
    atts ++ [⟨sid, uid, stat, now⟩]

/-- Code paths of attendance_session_detail (the mark view). -/
inductive MarkResult where
  | loginRedirect
  | sessionNotFound
  | renderOnly
  | invalidState
  | invalidInput
  | userNotFound
  | notTarget
  | marked
deriving DecidableEq, Repr

/-- attendance/views.py attendance_session_detail: the POST branch marks one
user; the decorator sends non-superusers to the login page; a POST on an
ended session falls through to the render branch without mutating. -/
def attendance_session_detail (st : Store) (caller : User) (isPost : Bool)
    (sid : Nat) (user_id : Option Nat) (status : Option Status) (now : Nat) :
    MarkResult × Store :=
  if caller.is_superuser then
    match findSession st sid with
    | none => (.sessionNotFound, st)
    | some s =>
      if isPost then
        if s.is_ended then (.invalidState, st)
        else
          match user_id, status with
          | some uid, some stat =>
            match findUser st uid with
            | none => (.userNotFound, st)
            | some u =>
              if u.id ∈ s.targets then
                (.marked, { st with
                  attendances := upsertAttendance st.attendances sid u.id stat now })
              else (.notTarget, st)
          | _, _ => (.invalidInput, st)
      else (.renderOnly, st)
  else (.loginRedirect, st)

/-- Code paths of close_attendance_session. -/
inductive CloseResult where
  | loginRedirect
  | sessionNotFound
  | renderRedirect
  | alreadyClosed
  | closed (autoFilled : Nat)
deriving DecidableEq, Repr

/-- attendance/views.py close_attendance_session: on POST, bulk-insert an
absent row for every target with no Attendance row, then set is_ended. -/
def close_attendance_session (st : Store) (caller : User) (isPost : Bool)
    (sid : Nat) (now : Nat) : CloseResult × Store :=
  if caller.is_superuser then
    match findSession st sid with
    | none => (.sessionNotFound, st)
    | some s =>
      if isPost then
        if s.is_ended then (.alreadyClosed, st)
        else
          let markedIds :=
            (st.attendances.filter (fun a => a.session_id = sid)).map (·.user_id)
          let missing := s.targets.filter (fun uid => uid ∉ markedIds)
          let newRows := missing.map (fun uid => Attendance.mk sid uid .absent now)
          (.closed newRows.length,
            { st with
              attendances := st.attendances ++ newRows,
              sessions := st.sessions.map (fun t =>
                if t.id = sid then { t with is_ended := true } else t) })
      else (.renderRedirect, st)
  else (.loginRedirect, st)

/-- Insertion step of a stable sort by a boolean comparator (`order_by`). -/
def insertLe {α : Type} (le : α → α → Bool) (x : α) : List α → List α
  | [] => [x]
  | y :: ys => if le x y then x :: y :: ys else y :: insertLe le x ys

/-- Stable insertion sort by a boolean comparator, modelling `order_by`. -/
def sortLe {α : Type} (le : α → α → Bool) : List α → List α
  | [] => []
  | x :: xs => insertLe le x (sortLe le xs)

/-- Summary record computed by the session-list view's annotations. -/
structure SessionSummary where
  sid : Nat
  title : String
  created_at : Nat
  target_count : Nat
  present_count : Nat
  late_count : Nat
  absent_count : Nat
  unmarked_count : Int
deriving DecidableEq, Repr

/-- `Count("attendances", filter=Q(attendances__status=stat), distinct=True)`:
the number of (distinct) Attendance rows of the session with that status. -/
def statusCount (st : Store) (sid : Nat) (stat : Status) : Nat :=
  (st.attendances.filter (fun a => a.session_id = sid ∧ a.status = stat)).length

/-- The annotations of attendance_session_list for one session:
target_count, the three status counts, and
unmarked = target_count - present - late - absent (an SQL integer). -/
def summarize (st : Store) (s : AttendanceSession) : SessionSummary :=
  let t := s.targets.dedup.length
  let p := statusCount st s.id .present
  let l := statusCount st s.id .late
  let ab := statusCount st s.id .absent
  ⟨s.id, s.title, s.created_at, t, p, l, ab, (t : Int) - p - l - ab⟩

/-- attendance/views.py attendance_session_list: all sessions annotated with
summary counts, ordered by `-created_at`; `none` is the login redirect of
the admin_required decorator. -/
def attendance_session_list (st : Store) (caller : User) :
    Option (List SessionSummary) :=
  if caller.is_superuser then
    some ((sortLe (fun a b => b.created_at ≤ a.created_at) st.sessions).map
      (summarize st))
  else none

/-- Number of distinct users having a given status in a session. -/
def distinctUsersWithStatus (st : Store) (sid : Nat) (stat : Status) : Nat :=
  ((st.attendances.filter
    (fun a => a.session_id = sid ∧ a.status = stat)).map (·.user_id)).dedup.length

/-- Python dict insertion `d[k] = v`: overwrite in place, else append. -/
def insertAssoc (d : List (String × String)) (k v : String) :
    List (String × String) :=
  if d.any (fun p => p.1 = k) then
    d.map (fun p => if p.1 = k then (k, v) else p)
  else d ++ [(k, v)]

/-- Python dict lookup `d.get(k)`. -/
def lookupAssoc (d : List (String × String)) (k : String) : Option String :=
  (d.find? (fun p => p.1 = k)).map (·.2)

/-- The `attendance_lookup` dict comprehension: the status of the last record
listed for the (user, session) pair, if any. -/
def lastStatus (atts : List Attendance) (uid sid : Nat) : Option Status :=
  ((atts.filter (fun a => a.user_id = uid ∧ a.session_id = sid)).getLast?).map
    (·.status)

/-- The tabular artifact handed to the spreadsheet writer: column headers and
one list of cells per student, one cell per column. -/
structure MatrixExport where
  columns : List String
  rows : List (List String)
deriving DecidableEq, Repr

/-- The cell text the export writes for a looked-up status. -/
def cellText : Option Status → String
  | some stat => statusStr stat
  | none => "N/A"

/-- The per-student row dict of the export loop: it starts as
`row = {"User": student.username}` and then, for each session in order,
`row[session.title] = status-or-N/A` — so a session titled "User" overwrites
the username entry, exactly as in the source. -/
def exportRowDict (st : Store) (sessions : List AttendanceSession) (uid : Nat)
    (username : String) : List (String × String) :=
  sessions.foldl
    (fun d s => insertAssoc d s.title (cellText (lastStatus st.attendances uid s.id)))
    [("User", username)]

/-- attendance/views.py export_attendance_matrix_excel: rows are users with a
profile ordered by username, columns are `User` plus the session titles in
created_at order, and every cell of a row — the User cell included — is read
back from that student's row dict by its column name, as the data-frame
construction does; `none` is the decorator's login redirect. -/
def export_attendance_matrix_excel (st : Store) (caller : User) :
    Option MatrixExport :=
  if caller.is_superuser then
    let all_students := sortLe (fun a b => a.username ≤ b.username)
      (st.users.filter (fun u => st.profiles.any (fun p => p.user_id = u.id)))
    let all_sessions := sortLe (fun a b => a.created_at ≤ b.created_at) st.sessions
    let columns := "User" :: all_sessions.map (·.title)
    some
      { columns := columns,
        rows := all_students.map (fun u =>
          columns.map (fun c =>
            (lookupAssoc (exportRowDict st all_sessions u.id u.username) c).getD "")) }
  else none

/-- Python `round(x, 1)` modelled over the rationals: round to one decimal
place. -/
def round1 (q : ℚ) : ℚ := (round (q * 10) : ℤ) / 10

/-- The analytics dict assembled by the user_detail view. -/
structure UserStats where
  total_sessions : Nat
  present : Nat
  late : Nat
  absent : Nat
  unmarked : Int
  present_percent : ℚ
  late_percent : ℚ
  absent_percent : ℚ
  unmarked_percent : ℚ
  attendance_rate : ℚ
deriving DecidableEq, Repr

/-- users/views.py user_detail, analytics part (lines 88-116): session and
status counts for the user, unmarked as an integer difference, and the
percentages guarded against division by zero. -/
def per_user_stats (st : Store) (uid : Nat) : UserStats :=
  let total := (st.sessions.filter (fun s => uid ∈ s.targets)).length
  let p := (st.attendances.filter
    (fun a => a.user_id = uid ∧ a.status = .present)).length
  let l := (st.attendances.filter
    (fun a => a.user_id = uid ∧ a.status = .late)).length
  let ab := (st.attendances.filter
    (fun a => a.user_id = uid ∧ a.status = .absent)).length
  let unmarked : Int := (total : Int) - (p + l + ab)
  if 0 < total then
    { total_sessions := total, present := p, late := l, absent := ab,
      unmarked := unmarked,
      present_percent := round1 ((p : ℚ) / total * 100),
      late_percent := round1 ((l : ℚ) / total * 100),
      absent_percent := round1 ((ab : ℚ) / total * 100),
      unmarked_percent := round1 ((unmarked : ℚ) / total * 100),
      attendance_rate := round1 (((p : ℚ) + l) / total * 100) }
  else
    { total_sessions := total, present := p, late := l, absent := ab,
      unmarked := unmarked,
      present_percent := 0, late_percent := 0, absent_percent := 0,
      unmarked_percent := 0, attendance_rate := 0 }

/-- Code paths of user_delete. -/
inductive DeleteResult where
  | getRedirect
  | userNotFound
  | permissionDenied
  | deleted (username : String)
deriving DecidableEq, Repr

/-- users/views.py user_delete: POST-only; refuses a non-superuser caller
deleting a superuser; otherwise deletes the user, cascading to the profile,
the attendance rows and the target memberships. The view has no
admin_required decorator, so every caller reaches it. -/
def user_delete (st : Store) (caller : User) (isPost : Bool) (uid : Nat) :
    DeleteResult × Store :=
  if isPost then
    match findUser st uid with
    | none => (.userNotFound, st)
    | some u =>
      if u.is_superuser && !caller.is_superuser then (.permissionDenied, st)
      else
        (.deleted u.username,
          { st with
            users := st.users.filter (fun v => v.id ≠ uid),
            profiles := st.profiles.filter (fun p => p.user_id ≠ uid),
            attendances := st.attendances.filter (fun a => a.user_id ≠ uid),
            sessions := st.sessions.map (fun s =>
              { s with targets := s.targets.filter (fun t => t ≠ uid) }) })
  else (.getRedirect, st)

/-- The Profile row `Profile.objects.get_or_create(user=...)` creates when
none exists: Django model-field defaults. -/
def defaultProfile (uid : Nat) : Profile :=
  ⟨uid, "", "", "frontend", "N/A", ""⟩

/-- `Profile.objects.get_or_create(user=user)`. -/
def getOrCreateProfile (st : Store) (uid : Nat) : Profile × Store :=
  match st.profiles.find? (fun p => p.user_id = uid) with
  | some p => (p, st)
  | none =>
    (defaultProfile uid, { st with profiles := st.profiles ++ [defaultProfile uid] })

/-- Python str.strip() with no argument: drop leading and trailing
whitespace. -/
def pyStrip (s : String) : String :=
  ⟨((s.data.dropWhile Char.isWhitespace).reverse.dropWhile
    Char.isWhitespace).reverse⟩

/-- Python str.upper(): uppercase every character. -/
def pyUpper (s : String) : String :=
  ⟨s.data.map Char.toUpper⟩

/-- Code paths of user_edit. -/
inductive EditResult where
  | renderForm
  | userNotFound
  | emptyUsername
  | nothingChanged
  | updated
deriving DecidableEq, Repr

/-- users/views.py user_edit: uppercases the submitted section, then compares
the concatenation grade+section+account+phone_number+username of the
submitted values against the same concatenation of the stored values; equal
concatenations report "Nothing change." and write nothing, otherwise the
User and Profile rows are rewritten. No admin_required decorator. -/
def user_edit (st : Store) (uid : Nat) (isPost : Bool) (username grade sec
    account phone_number : String) : EditResult × Store :=
  match findUser st uid with
  | none => (.userNotFound, st)
  | some u =>
    let pst := getOrCreateProfile st uid
    let profile := pst.1
    let st1 := pst.2
    if isPost then
      if pyStrip username = "" then (.emptyUsername, st1)
      else
        let secUp := pyUpper sec
        let old := grade ++ secUp ++ account ++ phone_number ++ username
        let new := profile.grade ++ profile.section ++ profile.account ++
          profile.phone_number ++ u.username
        if new = old then (.nothingChanged, st1)
        else
          (.updated,
            { st1 with
              users := st1.users.map (fun v =>
                if v.id = uid then { v with username := username } else v),
              profiles := st1.profiles.map (fun p =>
                if p.user_id = uid then
                  { p with
                    grade := grade,
                    «section» := secUp,
                    account := account,
                    phone_number := phone_number }
                else p) })
    else (.renderForm, st1)

/-- Inserting with `insertLe` is a permutation of consing. -/
theorem perm_insertLe {α : Type} (le : α → α → Bool) (x : α) (l : List α) :
    (insertLe le x l).Perm (x :: l) := by
  induction l with
  | nil => exact List.Perm.refl _
  | cons y ys ih =>
    by_cases hxy : le x y = true
    · simp [insertLe, hxy]
    · simp only [insertLe, if_neg hxy]
      exact (ih.cons y).trans (List.Perm.swap x y ys)

/-- `sortLe` permutes its input. -/
theorem perm_sortLe {α : Type} (le : α → α → Bool) (l : List α) :
    (sortLe le l).Perm l := by
  induction l with
  | nil => exact List.Perm.refl _
  | cons x xs ih => exact (perm_insertLe le x (sortLe le xs)).trans (ih.cons x)

/-- Membership in an `insertLe` result. -/
theorem mem_insertLe {α : Type} (le : α → α → Bool) (x z : α) (l : List α) :
    z ∈ insertLe le x l ↔ z = x ∨ z ∈ l := by
  rw [(perm_insertLe le x l).mem_iff, List.mem_cons]

/-- `insertLe` preserves sortedness for a total transitive comparator. -/
theorem pairwise_insertLe {α : Type} {le : α → α → Bool}
    (htot : ∀ a b, le a b = true ∨ le b a = true)
    (htrans : ∀ a b c, le a b = true → le b c = true → le a c = true)
    (x : α) {l : List α} (h : l.Pairwise (fun a b => le a b = true)) :
    (insertLe le x l).Pairwise (fun a b => le a b = true) := by
  induction l with
  | nil => simp [insertLe]
  | cons y ys ih =>
    rcases List.pairwise_cons.mp h with ⟨hy, hys⟩
    by_cases hxy : le x y = true
    · simp only [insertLe, if_pos hxy]
      refine List.pairwise_cons.mpr ⟨?_, h⟩
      intro z hz
      rcases List.mem_cons.mp hz with rfl | hz
      · exact hxy
      · exact htrans x y z hxy (hy z hz)
    · simp only [insertLe, if_neg hxy]
      refine List.pairwise_cons.mpr ⟨?_, ih hys⟩
      intro z hz
      rcases (mem_insertLe le x z ys).mp hz with rfl | hz
      · rcases htot z y with h1 | h1
        · exact absurd h1 hxy
        · exact h1
      · exact hy z hz

/-- `sortLe` sorts: the output is pairwise ordered by the comparator. -/
theorem pairwise_sortLe {α : Type} {le : α → α → Bool}
    (htot : ∀ a b, le a b = true ∨ le b a = true)
    (htrans : ∀ a b c, le a b = true → le b c = true → le a c = true)
    (l : List α) :
    (sortLe le l).Pairwise (fun a b => le a b = true) := by
  induction l with
  | nil => simp [sortLe]
  | cons x xs ih => exact pairwise_insertLe htot htrans x ih

/-- Under the uniqueness invariant, a (session, user) pair has at most one
row. -/
theorem pairFilter_length_le_one {atts : List Attendance} (sid uid : Nat)
    (h : AttUnique atts) : (pairFilter atts sid uid).length ≤ 1 := by
  induction atts with
  | nil => simp [pairFilter]
  | cons a as ih =>
    rcases List.pairwise_cons.mp h with ⟨ha, has⟩
    by_cases hk : a.session_id = sid ∧ a.user_id = uid
    · have hnil : pairFilter as sid uid = [] := by
        rw [pairFilter, List.filter_eq_nil_iff]
        intro b hb
        simp only [decide_eq_true_eq]
        intro hbk
        exact ha b hb ⟨hk.1.trans hbk.1.symm, hk.2.trans hbk.2.symm⟩
      have hstep : pairFilter (a :: as) sid uid = a :: pairFilter as sid uid := by
        simp [pairFilter, List.filter_cons, hk]
      rw [hstep, hnil]
      simp
    · simp only [pairFilter, List.filter_cons, decide_eq_true_eq, hk, if_false]
      exact ih has

/-- The mark update leaves the session key of a row unchanged. -/
theorem markUpdate_sessionId (sid uid : Nat) (stat : Status) (now : Nat)
    (a : Attendance) :
    (if a.session_id = sid ∧ a.user_id = uid then
      { a with status := stat, attended_at := now } else a).session_id
      = a.session_id := by
  split <;> rfl

/-- The mark update leaves the user key of a row unchanged. -/
theorem markUpdate_userId (sid uid : Nat) (stat : Status) (now : Nat)
    (a : Attendance) :
    (if a.session_id = sid ∧ a.user_id = uid then
      { a with status := stat, attended_at := now } else a).user_id
      = a.user_id := by
  split <;> rfl

/-- Upserting preserves the one-row-per-pair invariant. -/
theorem AttUnique_upsert {atts : List Attendance} (sid uid : Nat) (stat : Status)
    (now : Nat) (h : AttUnique atts) :
    AttUnique (upsertAttendance atts sid uid stat now) := by
  rw [upsertAttendance]
  split
  · rw [AttUnique, List.pairwise_map]
    refine h.imp ?_
    intro a b hab
    simpa [markUpdate_sessionId, markUpdate_userId] using hab
  · next hany =>
    rw [AttUnique, List.pairwise_append]
    refine ⟨h, List.pairwise_singleton _ _, ?_⟩
    intro a ha b hb
    simp only [List.mem_singleton] at hb
    subst hb
    intro hcon
    apply hany
    rw [List.any_eq_true]
    refine ⟨a, ha, ?_⟩
    simpa using hcon

/-- The pair's rows after the in-place update of the mark upsert: every row of
the pair becomes the freshly marked row. -/
theorem pairFilter_map_update (atts : List Attendance) (sid uid : Nat)
    (stat : Status) (now : Nat) :
    pairFilter (atts.map (fun a =>
        if a.session_id = sid ∧ a.user_id = uid then
          { a with status := stat, attended_at := now }
        else a)) sid uid
      = (pairFilter atts sid uid).map
          (fun _ => (⟨sid, uid, stat, now⟩ : Attendance)) := by
  induction atts with
  | nil => rfl
  | cons a as ih =>
    by_cases hk : a.session_id = sid ∧ a.user_id = uid
    · obtain ⟨h1, h2⟩ := hk
      simp only [pairFilter] at ih ⊢
      simpa [List.filter_cons, h1, h2] using ih
    · simp only [pairFilter] at ih ⊢
      simpa [List.filter_cons, hk] using ih

/-- No row for the pair: the pair filter is empty. -/
theorem pairFilter_eq_nil {atts : List Attendance} {sid uid : Nat}
    (h : ¬ atts.any (fun a => a.session_id = sid ∧ a.user_id = uid) = true) :
    pairFilter atts sid uid = [] := by
  rw [pairFilter, List.filter_eq_nil_iff]
  intro a ha
  simp only [decide_eq_true_eq]
  intro hk
  exact h (List.any_eq_true.mpr ⟨a, ha, by simpa using hk⟩)

/-- Last write wins: after an upsert, the pair's rows are exactly the single
freshly written row. -/
theorem pairFilter_upsert_self {atts : List Attendance} (sid uid : Nat)
    (stat : Status) (now : Nat) (h : AttUnique atts) :
    pairFilter (upsertAttendance atts sid uid stat now) sid uid
      = [⟨sid, uid, stat, now⟩] := by
  rw [upsertAttendance]
  split
  · next hany =>
    rw [pairFilter_map_update]
    obtain ⟨a0, ha0, hk0⟩ := List.any_eq_true.mp hany
    have hmem : a0 ∈ pairFilter atts sid uid :=
      List.mem_filter.mpr ⟨ha0, hk0⟩
    have hlen : (pairFilter atts sid uid).length = 1 := by
      have h1 := pairFilter_length_le_one sid uid h
      have h2 : 0 < (pairFilter atts sid uid).length :=
        List.length_pos.mpr (List.ne_nil_of_mem hmem)
      omega
    obtain ⟨b, hb⟩ := List.length_eq_one.mp hlen
    rw [hb, List.map_cons, List.map_nil]
  · next hany =>
    rw [pairFilter, List.filter_append]
    have h1 : List.filter (fun a =>
        decide (a.session_id = sid ∧ a.user_id = uid)) atts = [] :=
      pairFilter_eq_nil hany
    rw [h1]
    simp

/-- A found session is a stored session with the looked-up id. -/
theorem findSession_mem {st : Store} {sid : Nat} {s : AttendanceSession}
    (h : findSession st sid = some s) : s ∈ st.sessions ∧ s.id = sid := by
  refine ⟨List.mem_of_find?_eq_some h, ?_⟩
  have := List.find?_some h
  simpa using this

/-- A found user carries the looked-up id. -/
theorem findUser_id {st : Store} {uid : Nat} {u : User}
    (h : findUser st uid = some u) : u.id = uid := by
  have := List.find?_some h
  simpa using this

/-- The mark view preserves the one-row-per-pair invariant on every path. -/
theorem AttUnique_mark (st : Store) (caller : User) (isPost : Bool) (sid : Nat)
    (ouid : Option Nat) (ostat : Option Status) (now : Nat)
    (h : AttUnique st.attendances) :
    AttUnique
      (attendance_session_detail st caller isPost sid ouid ostat now).2.attendances := by
  rw [attendance_session_detail]
  repeat' split
  all_goals first
    | exact h
    | exact AttUnique_upsert _ _ _ _ h

/-- The close view preserves the one-row-per-pair invariant on every path. -/
theorem AttUnique_close (st : Store) (caller : User) (isPost : Bool)
    (sid now : Nat)
    (huniq : AttUnique st.attendances) (htgt : TargetsNodup st) :
    AttUnique
      (close_attendance_session st caller isPost sid now).2.attendances := by
  rw [close_attendance_session]
  repeat' split
  all_goals try exact huniq
  next s hfind _ _ =>
    have hs := findSession_mem hfind
    have hnodup : s.targets.Nodup := htgt s hs.1
    rw [AttUnique, List.pairwise_append]
    refine ⟨huniq, ?_, ?_⟩
    · rw [List.pairwise_map]
      exact ((hnodup.filter _).imp (fun hne hcon => hne hcon.2))
    · intro x hx y hy
      rw [List.mem_map] at hy
      obtain ⟨uid, huid, rfl⟩ := hy
      rw [List.mem_filter] at huid
      intro hcon
      have : uid ∈ (st.attendances.filter
          (fun a => a.session_id = sid)).map (·.user_id) := by
        rw [List.mem_map]
        exact ⟨x, List.mem_filter.mpr ⟨hx, by simpa using hcon.1⟩, hcon.2⟩
      have hnot := huid.2
      simp only [decide_eq_true_eq] at hnot
      exact hnot this

/-- Inversion of a successful mark: the store change is exactly the upsert of
the (session, user) pair. -/
theorem mark_marked_inv {st st' : Store} {caller : User} {sid uid : Nat}
    {stat : Status} {now : Nat}
    (h : attendance_session_detail st caller true sid (some uid) (some stat) now
      = (.marked, st')) :
    st' = { st with
      attendances := upsertAttendance st.attendances sid uid stat now } := by
  rw [attendance_session_detail] at h
  split at h
  · split at h
    · simp at h
    · next s heq =>
      split at h
      · split at h
        · simp at h
        · have h' : (match findUser st uid with
              | none => (MarkResult.userNotFound, st)
              | some u =>
                if u.id ∈ s.targets then
                  (MarkResult.marked, { st with
                    attendances := upsertAttendance st.attendances sid u.id stat now })
                else (MarkResult.notTarget, st)) = (MarkResult.marked, st') := h
          cases hfu : findUser st uid with
          | none => rw [hfu] at h'; simp at h'
          | some u =>
            rw [hfu] at h'
            have h'' : (if u.id ∈ s.targets then
                (MarkResult.marked, { st with
                  attendances := upsertAttendance st.attendances sid u.id stat now })
              else (MarkResult.notTarget, st)) = (MarkResult.marked, st') := h'
            split at h''
            · rw [Prod.mk.injEq] at h''
              rw [← h''.2, findUser_id hfu]
            · simp at h''
      · simp at h
  · simp at h

/-- C2: for every session and user, a POST mark on a session whose is_ended
flag is true takes the invalid-state path and leaves the store untouched, and
a mark of a user who is not among the session's targets takes the
permission-warning path and leaves the store untouched. -/
theorem C2_mark_rejections
    (st : Store) (caller : User) (sid now : Nat) (s : AttendanceSession)
    (hsuper : caller.is_superuser = true)
    (hfind : findSession st sid = some s) :
    (∀ ouid ostat, s.is_ended = true →
      attendance_session_detail st caller true sid ouid ostat now
        = (.invalidState, st)) ∧
    (∀ uid stat u, s.is_ended = false → findUser st uid = some u →
      u.id ∉ s.targets →
      attendance_session_detail st caller true sid (some uid) (some stat) now
        = (.notTarget, st)) := by
  constructor
  · intro ouid ostat hend
    simp [attendance_session_detail, hsuper, hfind, hend]
  · intro uid stat u hopen hfu hmem
    simp [attendance_session_detail, hsuper, hfind, hopen, hfu, hmem]

/-- C7: at most one Attendance row exists per (session, user) pair: the
invariant is preserved by the mark view (on every path) and by the close view
(on every path), and marking the same pair twice leaves exactly one row for
the pair, carrying the second status (last write wins). -/
theorem C7_pair_uniqueness
    (st st1 st2 : Store) (caller : User) (isPost : Bool)
    (sid uid now now2 : Nat) (ouid : Option Nat) (ostat : Option Status)
    (stat1 stat2 : Status)
    (huniq : AttUnique st.attendances) (htgt : TargetsNodup st) :
    AttUnique
      (attendance_session_detail st caller isPost sid ouid ostat now).2.attendances ∧
    AttUnique (close_attendance_session st caller isPost sid now).2.attendances ∧
    (attendance_session_detail st caller true sid (some uid) (some stat1) now
        = (.marked, st1) →
      attendance_session_detail st1 caller true sid (some uid) (some stat2) now2
        = (.marked, st2) →
      pairFilter st2.attendances sid uid = [⟨sid, uid, stat2, now2⟩]) := by
  refine ⟨AttUnique_mark st caller isPost sid ouid ostat now huniq,
    AttUnique_close st caller isPost sid now huniq htgt, ?_⟩
  intro h1 h2
  have e1 := mark_marked_inv h1
  have e2 := mark_marked_inv h2
  have hu1 : AttUnique st1.attendances := by
    rw [e1]
    exact AttUnique_upsert _ _ _ _ huniq
  rw [e2]
  exact pairFilter_upsert_self sid uid stat2 now2 hu1

instance (atts : List Attendance) : Decidable (AttUnique atts) :=
  List.instDecidablePairwise atts

instance (st : Store) : Decidable (TargetsNodup st) :=
  inferInstanceAs (Decidable (∀ s ∈ st.sessions, s.targets.Nodup))

/-- Fixture: the superuser making the requests in the concrete scenarios. -/
def adminW : User := ⟨9, "root", "root@example.com", true, true⟩

/-- Fixture: an ordinary roster user. -/
def aliceW : User := ⟨1, "alice", "alice@example.com", false, false⟩

/-- Fixture: another ordinary roster user. -/
def bobW : User := ⟨2, "bob", "bob@example.com", false, false⟩

/-- Fixture store for the C2 witness: one ended session and one open session
targeting only alice. -/
def wStoreC2 : Store :=
  ⟨[aliceW, bobW, adminW], [],
   [⟨20, "ended", 0, true, [1]⟩, ⟨21, "open", 1, false, [1]⟩], []⟩

/-- Witness for C2: marking in the ended session is refused with no store
change, and marking bob (not a target) in the open session is refused with no
store change. -/
theorem C2_mark_rejections_witness :
    attendance_session_detail wStoreC2 adminW true 20 (some 1) (some .present) 5
      = (.invalidState, wStoreC2) ∧
    attendance_session_detail wStoreC2 adminW true 21 (some 2) (some .present) 5
      = (.notTarget, wStoreC2) :=
  ⟨(C2_mark_rejections wStoreC2 adminW 20 5 ⟨20, "ended", 0, true, [1]⟩ rfl rfl).1
      (some 1) (some .present) rfl,
   (C2_mark_rejections wStoreC2 adminW 21 5 ⟨21, "open", 1, false, [1]⟩ rfl rfl).2
      2 .present bobW rfl rfl (by decide)⟩

/-- Fixture store for the C7 witness: one open session targeting alice. -/
def wStoreC7 : Store :=
  ⟨[aliceW, adminW], [], [⟨20, "standup", 0, false, [1]⟩], []⟩

/-- Witness for C7: marking alice present then late leaves exactly one row
for the pair, carrying the second status. -/
theorem C7_pair_uniqueness_witness :
    pairFilter ((attendance_session_detail
        ((attendance_session_detail wStoreC7 adminW true 20
          (some 1) (some .present) 5).2)
        adminW true 20 (some 1) (some .late) 6).2).attendances 20 1
      = [⟨20, 1, .late, 6⟩] :=
  (C7_pair_uniqueness wStoreC7
      (attendance_session_detail wStoreC7 adminW true 20
        (some 1) (some .present) 5).2
      (attendance_session_detail
        ((attendance_session_detail wStoreC7 adminW true 20
          (some 1) (some .present) 5).2)
        adminW true 20 (some 1) (some .late) 6).2
      adminW true 20 1 5 6 none none .present .late
      (by decide) (by decide)).2.2 rfl rfl

/-- After the close view marks the session ended, looking the session up again
finds it with is_ended set. -/
theorem find_setEnded (sessions : List AttendanceSession) (sid : Nat)
    (s : AttendanceSession)
    (h : sessions.find? (fun t => t.id = sid) = some s) :
    (sessions.map (fun t =>
      if t.id = sid then { t with is_ended := true } else t)).find?
        (fun t => t.id = sid) = some { s with is_ended := true } := by
  induction sessions with
  | nil => simp at h
  | cons x xs ih =>
    by_cases hx : x.id = sid
    · have hxs : x = s := by
        rw [List.find?_cons_of_pos _ (by simpa using hx)] at h
        exact Option.some.inj h
      subst hxs
      rw [List.map_cons, if_pos hx, List.find?_cons_of_pos _ (by simpa using hx)]
    · rw [List.find?_cons_of_neg _ (by simpa using hx)] at h
      rw [List.map_cons, if_neg hx, List.find?_cons_of_neg _ (by simpa using hx)]
      exact ih h

/-- Inversion of a successful close: the caller was a superuser, the session
was found open, and the stored sessions were rewritten with is_ended set. -/
theorem close_closed_sessions {st st1 : Store} {caller : User}
    {sid now k : Nat}
    (h : close_attendance_session st caller true sid now = (.closed k, st1)) :
    caller.is_superuser = true ∧
    ∃ s, findSession st sid = some s ∧
      st1.sessions = st.sessions.map (fun t =>
        if t.id = sid then { t with is_ended := true } else t) := by
  rw [close_attendance_session] at h
  split at h
  · next hsuper =>
    split at h
    · simp at h
    · next s heq =>
      split at h
      · split at h
        · simp at h
        · rw [Prod.mk.injEq] at h
          exact ⟨hsuper, s, heq, by rw [← h.2]⟩
      · simp at h
  · simp at h

/-- C6: close is idempotent in effect: after one successful close, a second
POST close reports the session as already closed and returns the store
unchanged (no Attendance rows and no session fields change). -/
theorem C6_close_idempotent (st st1 : Store) (caller : User)
    (sid now now2 k : Nat)
    (h : close_attendance_session st caller true sid now = (.closed k, st1)) :
    close_attendance_session st1 caller true sid now2 = (.alreadyClosed, st1) := by
  obtain ⟨hsuper, s, hfind, hsess⟩ := close_closed_sessions h
  have hf1 : findSession st1 sid = some { s with is_ended := true } := by
    rw [findSession, hsess]
    exact find_setEnded st.sessions sid s hfind
  simp [close_attendance_session, hsuper, hf1]

/-- Fixture store for the C6 witness: one open session targeting alice and
bob, alice already marked present. -/
def wStoreC6 : Store :=
  ⟨[aliceW, bobW, adminW], [], [⟨30, "drill", 3, false, [1, 2]⟩],
   [⟨30, 1, .present, 4⟩]⟩

/-- Witness for C6: closing the fixture session once succeeds, and a second
close reports already-closed with the store unchanged. -/
theorem C6_close_idempotent_witness :
    close_attendance_session
        (close_attendance_session wStoreC6 adminW true 30 5).2
        adminW true 30 6
      = (.alreadyClosed, (close_attendance_session wStoreC6 adminW true 30 5).2) :=
  C6_close_idempotent wStoreC6
    (close_attendance_session wStoreC6 adminW true 30 5).2
    adminW 30 5 6 1 rfl

/-- A user id is absent from the marked-ids list exactly when the pair has no
Attendance row. -/
theorem notMarked_iff (atts : List Attendance) (sid uid : Nat) :
    uid ∉ (atts.filter (fun a => a.session_id = sid)).map (·.user_id) ↔
    pairFilter atts sid uid = [] := by
  rw [pairFilter, List.filter_eq_nil_iff]
  simp only [List.mem_map, List.mem_filter, decide_eq_true_eq, not_exists]
  constructor
  · intro h a ha hk
    exact h a ⟨⟨ha, hk.1⟩, hk.2⟩
  · rintro h a ⟨⟨ha, h1⟩, h2⟩
    exact h a ha ⟨h1, h2⟩

/-- The pair filter of the freshly created absent rows selects the rows whose
user id matches. -/
theorem pairFilter_newRows (missing : List Nat) (sid now uid : Nat) :
    pairFilter (missing.map (fun v => Attendance.mk sid v .absent now)) sid uid
      = (missing.filter (fun v => v = uid)).map
          (fun v => Attendance.mk sid v .absent now) := by
  induction missing with
  | nil => rfl
  | cons v vs ih =>
    by_cases hv : v = uid
    · simp only [pairFilter, List.map_cons, List.filter_cons] at ih ⊢
      simpa [hv] using ih
    · simp only [pairFilter, List.map_cons, List.filter_cons] at ih ⊢
      simpa [hv] using ih

/-- In a duplicate-free list, filtering for a present element yields exactly
one hit. -/
theorem filter_eq_length_one {l : List Nat} {uid : Nat} (hnd : l.Nodup)
    (hm : uid ∈ l) : (l.filter (fun v => v = uid)).length = 1 := by
  induction l with
  | nil => cases hm
  | cons v vs ih =>
    rcases List.nodup_cons.mp hnd with ⟨hv, hvs⟩
    rcases List.mem_cons.mp hm with rfl | hm2
    · have hnil : vs.filter (fun w => w = uid) = [] := by
        rw [List.filter_eq_nil_iff]
        intro w hw
        simp only [decide_eq_true_eq]
        intro hwv
        exact hv (hwv ▸ hw)
      simp [List.filter_cons, hnil]
    · have hvne : ¬ (v = uid) := fun hh => hv (hh ▸ hm2)
      simp only [List.filter_cons, decide_eq_true_eq]
      rw [if_neg hvne]
      exact ih hvs hm2

/-- Splitting the pair filter over an append of row lists. -/
theorem pairFilter_append (l1 l2 : List Attendance) (sid uid : Nat) :
    pairFilter (l1 ++ l2) sid uid
      = pairFilter l1 sid uid ++ pairFilter l2 sid uid := by
  simp [pairFilter, List.filter_append]

/-- C1: on an open session, the close view bulk-inserts an absent row for
exactly the targets with no Attendance row, marks the session ended, and
reports the auto-filled count; afterwards every target has exactly one row,
prior rows (and their statuses) are kept verbatim, and every new row is an
absent auto-fill for a previously unmarked target. -/
theorem C1_close_autofills
    (st : Store) (caller : User) (sid now : Nat) (s : AttendanceSession)
    (hsuper : caller.is_superuser = true)
    (hfind : findSession st sid = some s)
    (hopen : s.is_ended = false)
    (huniq : AttUnique st.attendances)
    (hnodup : s.targets.Nodup) :
    ∃ st1,
      close_attendance_session st caller true sid now
        = (.closed ((s.targets.filter
            (fun uid => pairFilter st.attendances sid uid = [])).length), st1) ∧
      findSession st1 sid = some { s with is_ended := true } ∧
      (∀ uid ∈ s.targets, (pairFilter st1.attendances sid uid).length = 1) ∧
      (∀ a ∈ st.attendances, a ∈ st1.attendances) ∧
      (∀ a ∈ st1.attendances, a ∉ st.attendances →
        a.session_id = sid ∧ a.status = .absent ∧ a.user_id ∈ s.targets ∧
        pairFilter st.attendances sid a.user_id = []) := by
  have hmiss_eq : (s.targets.filter (fun uid => uid ∉ (st.attendances.filter
        (fun a => a.session_id = sid)).map (·.user_id)))
      = s.targets.filter (fun uid => pairFilter st.attendances sid uid = []) := by
    apply List.filter_congr
    intro uid _
    exact decide_eq_decide.mpr (notMarked_iff st.attendances sid uid)
  refine ⟨{ st with
      attendances := st.attendances ++
        ((s.targets.filter (fun uid => uid ∉ (st.attendances.filter
          (fun a => a.session_id = sid)).map (·.user_id))).map
          (fun uid => Attendance.mk sid uid .absent now)),
      sessions := st.sessions.map (fun t =>
        if t.id = sid then { t with is_ended := true } else t) },
    ?_, ?_, ?_, ?_, ?_⟩
  · rw [close_attendance_session]
    rw [if_pos hsuper, hfind]
    simp only [hopen, Bool.false_eq_true, if_false, if_true, List.length_map]
    rw [hmiss_eq]
  · show (st.sessions.map (fun t =>
      if t.id = sid then { t with is_ended := true } else t)).find?
        (fun t => t.id = sid) = some { s with is_ended := true }
    exact find_setEnded st.sessions sid s hfind
  · intro uid huid
    show (pairFilter (st.attendances ++ _) sid uid).length = 1
    rw [pairFilter_append, List.length_append, pairFilter_newRows]
    by_cases hmark : pairFilter st.attendances sid uid = []
    · rw [hmark]
      have humem : uid ∈ s.targets.filter (fun v => v ∉ (st.attendances.filter
          (fun a => a.session_id = sid)).map (·.user_id)) := by
        rw [List.mem_filter]
        exact ⟨huid, by
          simp only [decide_eq_true_eq]
          exact (notMarked_iff st.attendances sid uid).mpr hmark⟩
      rw [List.length_nil, List.length_map,
        filter_eq_length_one (hnodup.filter _) humem]
    · have hle := pairFilter_length_le_one sid uid huniq
      have hpos : 0 < (pairFilter st.attendances sid uid).length :=
        List.length_pos.mpr hmark
      have h1 : (pairFilter st.attendances sid uid).length = 1 := by omega
      have hnil : ((s.targets.filter (fun v => v ∉ (st.attendances.filter
          (fun a => a.session_id = sid)).map (·.user_id))).filter
            (fun v => v = uid)) = [] := by
        rw [List.filter_eq_nil_iff]
        intro v hv
        simp only [decide_eq_true_eq]
        intro hveq
        subst hveq
        have := (List.mem_filter.mp hv).2
        simp only [decide_eq_true_eq] at this
        exact hmark ((notMarked_iff st.attendances sid v).mp this) |>.elim
      rw [h1, hnil]
      simp
  · intro a ha
    exact List.mem_append_left _ ha
  · intro a ha hnot
    rcases List.mem_append.mp ha with hmem | hmem
    · exact absurd hmem hnot
    · rw [List.mem_map] at hmem
      obtain ⟨uid, huid, rfl⟩ := hmem
      rw [List.mem_filter] at huid
      have hnm := huid.2
      simp only [decide_eq_true_eq] at hnm
      exact ⟨rfl, rfl, huid.1, (notMarked_iff st.attendances sid uid).mp hnm⟩

/-- Fixture store for the C1 witness: an open session targeting alice and
bob, alice already marked late. -/
def wStoreC1 : Store :=
  ⟨[aliceW, bobW, adminW], [], [⟨40, "lab", 2, false, [1, 2]⟩],
   [⟨40, 1, .late, 3⟩]⟩

/-- Witness for C1 at the fixture store. -/
theorem C1_close_autofills_witness :
    ∃ st1,
      close_attendance_session wStoreC1 adminW true 40 7
        = (.closed ((([1, 2] : List Nat).filter
            (fun uid => pairFilter wStoreC1.attendances 40 uid = [])).length),
          st1) ∧
      findSession st1 40 = some ⟨40, "lab", 2, true, [1, 2]⟩ ∧
      (∀ uid ∈ ([1, 2] : List Nat),
        (pairFilter st1.attendances 40 uid).length = 1) ∧
      (∀ a ∈ wStoreC1.attendances, a ∈ st1.attendances) ∧
      (∀ a ∈ st1.attendances, a ∉ wStoreC1.attendances →
        a.session_id = 40 ∧ a.status = .absent ∧ a.user_id ∈ ([1, 2] : List Nat) ∧
        pairFilter wStoreC1.attendances 40 a.user_id = []) :=
  C1_close_autofills wStoreC1 adminW 40 7 ⟨40, "lab", 2, false, [1, 2]⟩
    rfl rfl rfl (by decide) (by decide)

/-- Under the uniqueness invariant, the row count of a status equals the
number of distinct users with that status. -/
theorem statusCount_eq_distinct (st : Store) (sid : Nat) (stat : Status)
    (h : AttUnique st.attendances) :
    statusCount st sid stat = distinctUsersWithStatus st sid stat := by
  rw [statusCount, distinctUsersWithStatus]
  have hnd : ((st.attendances.filter
      (fun a => a.session_id = sid ∧ a.status = stat)).map (·.user_id)).Nodup := by
    show ((st.attendances.filter
      (fun a => a.session_id = sid ∧ a.status = stat)).map (·.user_id)).Pairwise
        (· ≠ ·)
    rw [List.pairwise_map]
    refine ((h.filter _).imp_of_mem ?_)
    intro a b ha hb hne
    have ha' := (List.mem_filter.mp ha).2
    have hb' := (List.mem_filter.mp hb).2
    simp only [decide_eq_true_eq] at ha' hb'
    intro huv
    exact hne ⟨ha'.1.trans hb'.1.symm, huv⟩
  rw [List.dedup_eq_self.mpr hnd, List.length_map]

/-- C4: in every summary produced by the session-list view,
present + late + absent + unmarked equals target_count, each status count is
the number of distinct users with that status in the session, and the
summaries are ordered by creation time, most recent first. -/
theorem C4_summary_invariant (st : Store) (caller : User)
    (out : List SessionSummary)
    (huniq : AttUnique st.attendances)
    (hout : attendance_session_list st caller = some out) :
    (∀ m ∈ out,
      (m.present_count : Int) + m.late_count + m.absent_count + m.unmarked_count
        = m.target_count ∧
      m.present_count = distinctUsersWithStatus st m.sid .present ∧
      m.late_count = distinctUsersWithStatus st m.sid .late ∧
      m.absent_count = distinctUsersWithStatus st m.sid .absent) ∧
    out.Pairwise (fun x y => y.created_at ≤ x.created_at) := by
  rw [attendance_session_list] at hout
  split at hout
  · rw [Option.some.injEq] at hout
    subst hout
    constructor
    · intro m hm
      rw [List.mem_map] at hm
      obtain ⟨s, hs, rfl⟩ := hm
      refine ⟨?_, ?_, ?_, ?_⟩
      · simp only [summarize]
        ring
      · exact statusCount_eq_distinct st s.id .present huniq
      · exact statusCount_eq_distinct st s.id .late huniq
      · exact statusCount_eq_distinct st s.id .absent huniq
    · rw [List.pairwise_map]
      refine (pairwise_sortLe ?_ ?_ st.sessions).imp ?_
      · intro a b
        rcases Nat.le_total b.created_at a.created_at with h | h
        · left; simpa using h
        · right; simpa using h
      · intro a b c hab hbc
        simp only [decide_eq_true_eq] at hab hbc ⊢
        omega
      · intro a b hab
        simp only [decide_eq_true_eq] at hab
        simpa [summarize] using hab
  · simp at hout

/-- Fixture store for the C4 witness: two sessions, alice marked present in
the earlier one. -/
def wStoreC4 : Store :=
  ⟨[aliceW, bobW, adminW], [],
   [⟨50, "first", 1, false, [1, 2]⟩, ⟨51, "second", 2, false, [1]⟩],
   [⟨50, 1, .present, 0⟩]⟩

/-- Witness for C4 at the fixture store: the view lists the newer session
first and both summaries satisfy the count identity. -/
theorem C4_summary_invariant_witness :
    (∀ m ∈ [(⟨51, "second", 2, 1, 0, 0, 0, 1⟩ : SessionSummary),
        ⟨50, "first", 1, 2, 1, 0, 0, 1⟩],
      (m.present_count : Int) + m.late_count + m.absent_count + m.unmarked_count
        = m.target_count ∧
      m.present_count = distinctUsersWithStatus wStoreC4 m.sid .present ∧
      m.late_count = distinctUsersWithStatus wStoreC4 m.sid .late ∧
      m.absent_count = distinctUsersWithStatus wStoreC4 m.sid .absent) ∧
    List.Pairwise (fun x y => y.created_at ≤ x.created_at)
      [(⟨51, "second", 2, 1, 0, 0, 0, 1⟩ : SessionSummary),
        ⟨50, "first", 1, 2, 1, 0, 0, 1⟩] :=
  C4_summary_invariant wStoreC4 adminW
    [⟨51, "second", 2, 1, 0, 0, 0, 1⟩, ⟨50, "first", 1, 2, 1, 0, 0, 1⟩]
    (by decide) rfl

/-- C8: the user analytics never divide by zero: with zero targeted sessions
every percentage and the attendance rate are 0; with a positive count each
percentage is the category count over the total times 100 rounded to one
decimal place, and unmarked is the integer difference
total - (present + late + absent). -/
theorem C8_stats_no_div_by_zero (st : Store) (uid : Nat) :
    ((per_user_stats st uid).total_sessions = 0 →
      (per_user_stats st uid).present_percent = 0 ∧
      (per_user_stats st uid).late_percent = 0 ∧
      (per_user_stats st uid).absent_percent = 0 ∧
      (per_user_stats st uid).unmarked_percent = 0 ∧
      (per_user_stats st uid).attendance_rate = 0) ∧
    (0 < (per_user_stats st uid).total_sessions →
      (per_user_stats st uid).present_percent
        = round1 (((per_user_stats st uid).present : ℚ) /
            (per_user_stats st uid).total_sessions * 100) ∧
      (per_user_stats st uid).late_percent
        = round1 (((per_user_stats st uid).late : ℚ) /
            (per_user_stats st uid).total_sessions * 100) ∧
      (per_user_stats st uid).absent_percent
        = round1 (((per_user_stats st uid).absent : ℚ) /
            (per_user_stats st uid).total_sessions * 100) ∧
      (per_user_stats st uid).unmarked_percent
        = round1 (((per_user_stats st uid).unmarked : ℚ) /
            (per_user_stats st uid).total_sessions * 100) ∧
      (per_user_stats st uid).attendance_rate
        = round1 ((((per_user_stats st uid).present : ℚ)
            + (per_user_stats st uid).late) /
            (per_user_stats st uid).total_sessions * 100)) ∧
    (per_user_stats st uid).unmarked
      = ((per_user_stats st uid).total_sessions : Int)
        - ((per_user_stats st uid).present + (per_user_stats st uid).late
          + (per_user_stats st uid).absent) := by
  by_cases h : 0 < (st.sessions.filter (fun s => uid ∈ s.targets)).length
  · refine ⟨?_, ?_, ?_⟩
    · intro h0
      rw [per_user_stats] at h0
      rw [if_pos h] at h0
      simp only at h0
      omega
    · intro _
      simp [per_user_stats, h]
    · simp [per_user_stats, h]
  · refine ⟨?_, ?_, ?_⟩
    · intro _
      simp [per_user_stats, h]
    · intro h0
      rw [per_user_stats, if_neg h] at h0
      simp only at h0
      omega
    · simp [per_user_stats, h]

/-- Fixture store for the C8 witness: alice targeted by two sessions and
marked present in one; user id 7 targeted by none. -/
def wStoreC8 : Store :=
  ⟨[aliceW, adminW], [],
   [⟨60, "one", 0, false, [1]⟩, ⟨61, "two", 1, false, [1]⟩],
   [⟨60, 1, .present, 0⟩]⟩

/-- Witness for C8: with two sessions the present percentage follows the
rounded formula, and with zero sessions it is 0. -/
theorem C8_stats_no_div_by_zero_witness :
    (0 < (per_user_stats wStoreC8 1).total_sessions ∧
      (per_user_stats wStoreC8 1).present_percent
        = round1 (((per_user_stats wStoreC8 1).present : ℚ) /
            (per_user_stats wStoreC8 1).total_sessions * 100)) ∧
    ((per_user_stats wStoreC8 7).total_sessions = 0 ∧
      (per_user_stats wStoreC8 7).attendance_rate = 0) :=
  ⟨⟨by decide, ((C8_stats_no_div_by_zero wStoreC8 1).2.1 (by decide)).1⟩,
   ⟨by decide, ((C8_stats_no_div_by_zero wStoreC8 7).1 (by decide)).2.2.2.2⟩⟩

/-- C9: a deletion request by a non-superuser caller targeting a superuser
account takes the permission-denied path and leaves the store unchanged. -/
theorem C9_superuser_delete_protected (st : Store) (caller target : User)
    (uid : Nat)
    (hfind : findUser st uid = some target)
    (hsup : target.is_superuser = true)
    (hcaller : caller.is_superuser = false) :
    user_delete st caller true uid = (.permissionDenied, st) := by
  simp [user_delete, hfind, hsup, hcaller]

/-- Fixture: a non-superuser, non-staff caller. -/
def charlieW : User := ⟨3, "charlie", "charlie@example.com", false, false⟩

/-- Fixture store for the C9 witness: just the superuser account. -/
def wStoreC9 : Store := ⟨[adminW], [], [], []⟩

/-- Witness for C9: charlie (not a superuser) cannot delete the superuser. -/
theorem C9_superuser_delete_protected_witness :
    user_delete wStoreC9 charlieW true 9 = (.permissionDenied, wStoreC9) :=
  C9_superuser_delete_protected wStoreC9 charlieW adminW 9 rfl rfl rfl

/-- When the profile row exists, get_or_create returns it without touching
the store. -/
theorem getOrCreateProfile_found {st : Store} {uid : Nat} {p : Profile}
    (h : st.profiles.find? (fun q => q.user_id = uid) = some p) :
    getOrCreateProfile st uid = (p, st) := by
  rw [getOrCreateProfile, h]

/-- Fixture: the user edited in the C10 scenario. -/
def daveW : User := ⟨1, "dave", "dave@example.com", false, false⟩

/-- Fixture store for C10: dave with stored profile fields
grade "9", section "A", account "NA", phone "0912". -/
def wStoreC10 : Store :=
  ⟨[daveW], [⟨1, "9", "A", "frontend", "NA", "0912"⟩], [], []⟩

/-- C10: user_edit reports no change exactly when the single concatenation
grade+section+account+phone+username of the submitted values (section
uppercased) equals the concatenation of the stored values, leaving the store
unmodified; consequently the genuinely different submission
(grade "9A", section "") against stored (grade "9", section "A") writes
nothing. -/
theorem C10_edit_concat_comparison
    (st : Store) (uid : Nat) (u : User) (p : Profile)
    (username grade sec account phone : String)
    (hfind : findUser st uid = some u)
    (hprof : st.profiles.find? (fun q => q.user_id = uid) = some p)
    (hne : ¬ pyStrip username = "") :
    (user_edit st uid true username grade sec account phone
        = (.nothingChanged, st)
      ↔ p.grade ++ p.section ++ p.account ++ p.phone_number ++ u.username
          = grade ++ pyUpper sec ++ account ++ phone ++ username) ∧
    (user_edit wStoreC10 1 true "dave" "9A" "" "NA" "0912"
        = (.nothingChanged, wStoreC10) ∧
      ¬ ((("9A", "") : String × String) = ("9", "A"))) := by
  constructor
  · by_cases hcmp : p.grade ++ p.section ++ p.account ++ p.phone_number
        ++ u.username = grade ++ pyUpper sec ++ account ++ phone ++ username
    · simp [user_edit, hfind, getOrCreateProfile_found hprof, hne, hcmp]
    · simp [user_edit, hfind, getOrCreateProfile_found hprof, hne, hcmp]
  · exact ⟨rfl, by decide⟩

/-- Witness for C10: submitting the split (grade "9A", section "") against
the stored (grade "9", section "A") is reported as no change. -/
theorem C10_edit_concat_comparison_witness :
    user_edit wStoreC10 1 true "dave" "9A" "" "NA" "0912"
      = (.nothingChanged, wStoreC10) :=
  ((C10_edit_concat_comparison wStoreC10 1 daveW
      ⟨1, "9", "A", "frontend", "NA", "0912"⟩
      "dave" "9A" "" "NA" "0912" rfl rfl (by decide)).1).mpr rfl

/-- Fixture store for C3: alice (not a superuser) with a profile, a session
and an attendance row. -/
def wStoreC3 : Store :=
  ⟨[aliceW, adminW], [⟨1, "9", "A", "frontend", "NA", "0911"⟩],
   [⟨70, "gated", 0, false, [1]⟩], [⟨70, 1, .present, 1⟩]⟩

/-- C3: the user-delete view carries no superuser gate: charlie, who is not a
superuser, successfully deletes alice — her user row, profile, attendance
rows and target membership all disappear — whereas the decorated attendance
close view sends the same caller to the login page without touching the
store. -/
theorem C3_admin_gate_missing :
    charlieW.is_superuser = false ∧
    user_delete wStoreC3 charlieW true 1
      = (.deleted "alice",
        ⟨[adminW], [], [⟨70, "gated", 0, false, []⟩], []⟩) ∧
    close_attendance_session wStoreC3 charlieW true 70 5
      = (.loginRedirect, wStoreC3) :=
  ⟨rfl, rfl, rfl⟩

/-- Overwriting the first hit: after the in-place dict update, the key maps
to the new value. -/
theorem find?_map_overwrite :
    ∀ (d : List (String × String)) (k v : String),
      d.any (fun p => p.1 = k) = true →
      (d.map (fun p => if p.1 = k then (k, v) else p)).find? (fun p => p.1 = k)
        = some (k, v) := by
  intro d k v hany
  induction d with
  | nil => simp at hany
  | cons x xs ih =>
    by_cases hx : x.1 = k
    · simp [List.find?_cons, hx]
    · have hany' : xs.any (fun p => p.1 = k) = true := by
        rcases List.any_eq_true.mp hany with ⟨p, hp, hpk⟩
        rcases List.mem_cons.mp hp with rfl | hp2
        · simp [hx] at hpk
        · exact List.any_eq_true.mpr ⟨p, hp2, hpk⟩
      rw [List.map_cons, if_neg hx, List.find?_cons_of_neg _ (by simpa using hx)]
      exact ih hany'

/-- The in-place dict update leaves other keys untouched. -/
theorem find?_map_overwrite_ne :
    ∀ (d : List (String × String)) (k v k' : String), k' ≠ k →
      (d.map (fun p => if p.1 = k then (k, v) else p)).find? (fun p => p.1 = k')
        = d.find? (fun p => p.1 = k') := by
  intro d k v k' hne
  induction d with
  | nil => rfl
  | cons x xs ih =>
    by_cases hx : x.1 = k
    · have h1 : ¬ ((k, v).1 = k') := fun hh => hne hh.symm
      have h2 : ¬ (x.1 = k') := fun hh => hne (hh.symm.trans hx)
      rw [List.map_cons, if_pos hx, List.find?_cons_of_neg _ (by simpa using h1),
        List.find?_cons_of_neg _ (by simpa using h2)]
      exact ih
    · rw [List.map_cons, if_neg hx]
      by_cases hx' : x.1 = k'
      · rw [List.find?_cons_of_pos _ (by simpa using hx'),
          List.find?_cons_of_pos _ (by simpa using hx')]
      · rw [List.find?_cons_of_neg _ (by simpa using hx'),
          List.find?_cons_of_neg _ (by simpa using hx')]
        exact ih

/-- Looking up the key just inserted yields the inserted value. -/
theorem lookupAssoc_insertAssoc_self (d : List (String × String))
    (k v : String) : lookupAssoc (insertAssoc d k v) k = some v := by
  rw [insertAssoc]
  split
  · next hany =>
    rw [lookupAssoc, find?_map_overwrite d k v hany]
    rfl
  · next hany =>
    rw [lookupAssoc, List.find?_append]
    have hnil : d.find? (fun p => p.1 = k) = none := by
      rw [List.find?_eq_none]
      intro p hp
      simp only [decide_eq_true_eq]
      intro hpk
      exact hany (List.any_eq_true.mpr ⟨p, hp, by simpa using hpk⟩)
    rw [hnil]
    simp [List.find?_cons]

/-- Inserting under one key leaves lookups of other keys unchanged. -/
theorem lookupAssoc_insertAssoc_ne (d : List (String × String))
    (k v k' : String) (hne : k' ≠ k) :
    lookupAssoc (insertAssoc d k v) k' = lookupAssoc d k' := by
  rw [insertAssoc]
  split
  · rw [lookupAssoc, find?_map_overwrite_ne d k v k' hne, lookupAssoc]
  · rw [lookupAssoc, List.find?_append, lookupAssoc]
    have hnil : ([(k, v)].find? (fun p => p.1 = k')) = none := by
      rw [List.find?_eq_none]
      intro p hp
      simp only [List.mem_singleton] at hp
      subst hp
      simp only [decide_eq_true_eq]
      exact fun hh => hne hh.symm
    rw [hnil]
    cases d.find? (fun p => p.1 = k') <;> rfl

/-- Folding inserts whose keys avoid `t` does not change the lookup of `t`. -/
theorem lookupAssoc_foldl_of_notmem (val : AttendanceSession → String) :
    ∀ (l : List AttendanceSession) (d : List (String × String)) (t : String),
      t ∉ l.map (·.title) →
      lookupAssoc (l.foldl (fun d x => insertAssoc d x.title (val x)) d) t
        = lookupAssoc d t := by
  intro l
  induction l with
  | nil => intro d t _; rfl
  | cons x xs ih =>
    intro d t ht
    rw [List.map_cons, List.mem_cons] at ht
    push_neg at ht
    rw [List.foldl_cons, ih _ t ht.2]
    exact lookupAssoc_insertAssoc_ne d x.title (val x) t ht.1

/-- With duplicate-free titles, the row dict built by the export loop maps
each session's title to that session's value. -/
theorem lookupAssoc_foldl_self (val : AttendanceSession → String) :
    ∀ (l : List AttendanceSession) (d : List (String × String))
      (s : AttendanceSession), s ∈ l → (l.map (·.title)).Nodup →
      lookupAssoc (l.foldl (fun d x => insertAssoc d x.title (val x)) d) s.title
        = some (val s) := by
  intro l
  induction l with
  | nil => intro d s hs _; cases hs
  | cons x xs ih =>
    intro d s hs hnd
    rw [List.map_cons, List.nodup_cons] at hnd
    rw [List.foldl_cons]
    rcases List.mem_cons.mp hs with rfl | hs2
    · rw [lookupAssoc_foldl_of_notmem val xs _ s.title hnd.1]
      exact lookupAssoc_insertAssoc_self d s.title (val s)
    · exact ih _ s hs2 hnd.2

/-- In a list with at most one element, the last and first elements agree. -/
theorem getLast?_eq_head? {α : Type} :
    ∀ (l : List α), l.length ≤ 1 → l.getLast? = l.head?
  | [], _ => rfl
  | [_], _ => rfl
  | _ :: _ :: _, h => by simp at h

/-- Under the uniqueness invariant, the export's last-record lookup for a
pair is the head of the pair filter. -/
theorem lastStatus_eq_head {atts : List Attendance} (uid sid : Nat)
    (h : AttUnique atts) :
    lastStatus atts uid sid = (pairFilter atts sid uid).head?.map (·.status) := by
  rw [lastStatus]
  have hfe : atts.filter (fun a => a.user_id = uid ∧ a.session_id = sid)
      = pairFilter atts sid uid := by
    rw [pairFilter]
    apply List.filter_congr
    intro a _
    exact decide_eq_decide.mpr and_comm
  rw [hfe, getLast?_eq_head? _ (pairFilter_length_le_one sid uid h)]

/-- C5 (amended): provided all session titles are distinct and no session is
titled "User", the matrix export has one row per user with a profile, ordered
by username, each row carrying the username in the User column followed by
one cell per session in creation order, equal to the stored status string of
the (user, session) pair when its (unique) Attendance row exists and exactly
"N/A" otherwise. -/
theorem C5_matrix_export_amended
    (st : Store) (caller : User) (M : MatrixExport)
    (huniq : AttUnique st.attendances)
    (htitles : (st.sessions.map (·.title)).Nodup)
    (huser : "User" ∉ st.sessions.map (·.title))
    (hM : export_attendance_matrix_excel st caller = some M) :
    ∃ (students : List User) (sess : List AttendanceSession),
      students.Perm (st.users.filter (fun u =>
        st.profiles.any (fun p => p.user_id = u.id))) ∧
      students.Pairwise (fun a b : User => a.username ≤ b.username) ∧
      sess.Perm st.sessions ∧
      sess.Pairwise (fun a b : AttendanceSession =>
        a.created_at ≤ b.created_at) ∧
      M.columns = "User" :: sess.map (·.title) ∧
      M.rows = students.map (fun u =>
        u.username :: sess.map (fun s =>
          cellText ((pairFilter st.attendances s.id u.id).head?.map
            (·.status)))) := by
  rw [export_attendance_matrix_excel] at hM
  split at hM
  · simp only [Option.some.injEq] at hM
    subst hM
    refine ⟨sortLe (fun a b => a.username ≤ b.username)
        (st.users.filter (fun u => st.profiles.any (fun p => p.user_id = u.id))),
      sortLe (fun a b => a.created_at ≤ b.created_at) st.sessions,
      perm_sortLe _ _, ?_, perm_sortLe _ _, ?_, rfl, ?_⟩
    · refine (pairwise_sortLe ?_ ?_ _).imp ?_
      · intro a b
        rcases le_total a.username b.username with h | h
        · left; simpa using h
        · right; simpa using h
      · intro a b c hab hbc
        simp only [decide_eq_true_eq] at hab hbc ⊢
        exact le_trans hab hbc
      · intro a b hab
        simpa using hab
    · refine (pairwise_sortLe ?_ ?_ _).imp ?_
      · intro a b
        rcases Nat.le_total a.created_at b.created_at with h | h
        · left; simpa using h
        · right; simpa using h
      · intro a b c hab hbc
        simp only [decide_eq_true_eq] at hab hbc ⊢
        omega
      · intro a b hab
        simpa using hab
    · apply List.map_congr_left
      intro u _
      have hnd : ((sortLe (fun a b => a.created_at ≤ b.created_at)
          st.sessions).map (·.title)).Nodup :=
        ((perm_sortLe _ st.sessions).map (·.title)).nodup_iff.mpr htitles
      have huser' : "User" ∉ (sortLe (fun a b => a.created_at ≤ b.created_at)
          st.sessions).map (·.title) := fun hmem =>
        huser (((perm_sortLe _ st.sessions).map (·.title)).mem_iff.mp hmem)
      rw [List.map_cons]
      congr 1
      · rw [exportRowDict, lookupAssoc_foldl_of_notmem _ _ _ _ huser']
        rfl
      · rw [List.map_map]
        apply List.map_congr_left
        intro s hs
        rw [Function.comp_apply, exportRowDict,
          lookupAssoc_foldl_self _ _ _ s hs hnd,
          Option.getD_some, lastStatus_eq_head u.id s.id huniq]
  · simp at hM

/-- Fixture store for the C5 counterexample: two sessions share the title
"Standup"; alice (who has a profile) is present in the first and absent in
the second. -/
def cexStoreC5 : Store :=
  ⟨[aliceW, adminW], [⟨1, "9", "A", "frontend", "NA", "0911"⟩],
   [⟨1, "Standup", 0, false, [1]⟩, ⟨2, "Standup", 1, false, [1]⟩],
   [⟨1, 1, .present, 0⟩, ⟨2, 1, .absent, 0⟩]⟩

/-- Fixture store for the second C5 counterexample: a single session titled
"User", overwriting the username entry of the row dict. -/
def cexStoreC5b : Store :=
  ⟨[aliceW, adminW], [⟨1, "9", "A", "frontend", "NA", "0911"⟩],
   [⟨1, "User", 0, false, [1]⟩], [⟨1, 1, .present, 0⟩]⟩

/-- C5 counterexample: the row dict is keyed by column title, so (i) with two
sessions sharing a title the columns collapse — the cell in the first
session's column reads "absent" although the unique stored Attendance row for
(alice, session 1) has status present — and (ii) a session titled "User"
overwrites the username entry, so the exported row shows a status where the
username should be and the username appears nowhere; both break the claimed
row/cell description. -/
theorem C5_matrix_export_counterexample :
    (AttUnique cexStoreC5.attendances ∧
      export_attendance_matrix_excel cexStoreC5 adminW
        = some ⟨["User", "Standup", "Standup"],
            [["alice", "absent", "absent"]]⟩ ∧
      pairFilter cexStoreC5.attendances 1 1 = [⟨1, 1, .present, 0⟩] ∧
      statusStr Status.present ≠ "absent") ∧
    (AttUnique cexStoreC5b.attendances ∧
      export_attendance_matrix_excel cexStoreC5b adminW
        = some ⟨["User", "User"], [["present", "present"]]⟩ ∧
      aliceW.username = "alice" ∧
      "alice" ∉ (["present", "present"] : List String)) :=
  ⟨⟨by decide, rfl, rfl, by decide⟩, ⟨by decide, rfl, rfl, by decide⟩⟩

/-- Fixture store for the C5 witness: distinct titles, alice marked late in
the first session only. -/
def wStoreC5 : Store :=
  ⟨[aliceW, adminW], [⟨1, "9", "A", "frontend", "NA", "0911"⟩],
   [⟨80, "monday", 0, false, [1]⟩, ⟨81, "tuesday", 1, false, [1]⟩],
   [⟨80, 1, .late, 0⟩]⟩

/-- Witness for the amended C5 at the fixture store: the export has one row
for alice carrying her username followed by the cells "late" and "N/A". -/
theorem C5_matrix_export_amended_witness :
    ∃ (students : List User) (sess : List AttendanceSession),
      students.Perm (wStoreC5.users.filter (fun u =>
        wStoreC5.profiles.any (fun p => p.user_id = u.id))) ∧
      students.Pairwise (fun a b : User => a.username ≤ b.username) ∧
      sess.Perm wStoreC5.sessions ∧
      sess.Pairwise (fun a b : AttendanceSession =>
        a.created_at ≤ b.created_at) ∧
      (MatrixExport.mk ["User", "monday", "tuesday"]
          [["alice", "late", "N/A"]]).columns
        = "User" :: sess.map (·.title) ∧
      (MatrixExport.mk ["User", "monday", "tuesday"]
          [["alice", "late", "N/A"]]).rows
        = students.map (fun u =>
          u.username :: sess.map (fun s =>
            cellText ((pairFilter wStoreC5.attendances s.id u.id).head?.map
              (·.status)))) :=
  C5_matrix_export_amended wStoreC5 adminW
    ⟨["User", "monday", "tuesday"], [["alice", "late", "N/A"]]⟩
    (by decide) (by decide) (by decide) rfl
